import Mathlib

/-!
Verification of `examples/language_modelling/language_modelling_seq2seq.py`
(`Seq2SeqLanguageModel`: `tensor2text`, `text2tensor`, `fit`, `generate`).

Strings are modelled as `List Char`; tensors of token indices as nested
lists; rational numbers stand in for the floating point losses and scores.
Python exceptions are modelled by `Except PyError`.
-/

namespace LMSeq2Seq

/-- Python exceptions that the modelled code can raise.  `lookupError`
covers both `KeyError` and `IndexError` (both subclass `LookupError` in
Python). -/
inductive PyError
  | lookupError
  | valueError
  | assertionError
  | typeError
  | zeroDivisionError
  deriving DecidableEq

/-- The specification's abstract `InvalidArgument` error class: it covers the
`ValueError` raised for an unknown decoding method and the `AssertionError`
raised by the argument asserts in `generate`. -/
def PyError.isInvalidArg : PyError → Bool
  | PyError.valueError => true
  | PyError.assertionError => true
  | _ => false

/-- A Python list comprehension whose body may raise: elements are produced
left to right and the first exception propagates. -/
def mapE (f : α → Except PyError β) : List α → Except PyError (List β)
  | [] => Except.ok []
  | a :: l =>
    match f a with
    | Except.error e => Except.error e
    | Except.ok b =>
      match mapE f l with
      | Except.error e => Except.error e
      | Except.ok bs => Except.ok (b :: bs)

/-- Boolean test that `p` is an initial segment of `s`. -/
def beginsWith : List Char → List Char → Bool
  | [], _ => true
  | _ :: _, [] => false
  | a :: p, b :: s => a = b && beginsWith p s

/-- Propositional form of "initial segment". -/
def listPre (p s : List Char) : Prop := ∃ t, p ++ t = s

/-- Propositional form of "final segment". -/
def listSuf (e s : List Char) : Prop := ∃ t, t ++ e = s

/-- Boolean test that `e` occurs as a contiguous segment of `s`. -/
def occursIn (e : List Char) : List Char → Bool
  | [] => beginsWith e []
  | c :: s => beginsWith e (c :: s) || occursIn e s

/-- Truncation of one newline-free line at the first occurrence of `e`:
the shortest initial segment of the line that ends with `e`, or the whole
line when `e` does not occur in it. -/
def truncAtEnd (e : List Char) : List Char → List Char
  | [] => []
  | c :: s => if beginsWith e (c :: s) then e else c :: truncAtEnd e s

/-- Helper for `splitNl`: prepend a character to the first line. -/
def consHead (c : Char) : List (List Char) → List (List Char)
  | [] => [[c]]
  | line :: rest => (c :: line) :: rest

/-- Splitting a string at the newline characters (the lines of the string,
as Python's regex engine sees them for a `.`-pattern). -/
def splitNl : List Char → List (List Char)
  | [] => [[]]
  | c :: s => if c = '\n' then [] :: splitNl s else consHead c (splitNl s)

/-- Rejoining lines with newline characters; inverse of `splitNl` on
newline-free lines. -/
def joinNl : List (List Char) → List Char
  | [] => []
  | [l] => l
  | l :: ls => l ++ '\n' :: joinNl ls

/-- Python's `separator.join(symbols)`. -/
def joinSep (sep : List Char) : List (List Char) → List Char
  | [] => []
  | [s] => s
  | s :: rest => s ++ sep ++ joinSep sep rest

/-- Model of `re.sub(end + ".*", end, s)` from `tensor2text` (line 13),
for the kind of `end` pattern the source uses: a nonempty literal with no
newline and no regex metacharacters (the default is `"<END>"`).  Since `.`
does not match a newline, each match runs from an occurrence of `end` to
the end of that line, so every line of `s` is truncated at its first
occurrence of `end` (the marker itself is kept, being the replacement). -/
def reSubEndDotStar (e : List Char) (s : List Char) : List Char :=
  joinNl ((splitNl s).map (truncAtEnd e))

/-- A lookup `vocabulary[i]` in `tensor2text`'s output vocabulary (a
mapping from indices to symbol strings); a missing index raises a
`LookupError` (`KeyError`/`IndexError`). -/
def symLookup (outVocab : ℕ → Option (List Char)) (i : ℕ) : Except PyError (List Char) :=
  match outVocab i with
  | none => Except.error PyError.lookupError
  | some s => Except.ok s

/-- One row of `tensor2text`: look each index up in the output vocabulary,
join the symbols with `sep`, and apply `re.sub(end + ".*", end, ·)`. -/
def decodeRow (outVocab : ℕ → Option (List Char)) (sep e : List Char)
    (row : List ℕ) : Except PyError (List Char) :=
  match mapE (symLookup outVocab) row with
  | Except.error err => Except.error err
  | Except.ok syms => Except.ok (reSubEndDotStar e (joinSep sep syms))

/-- Model of `tensor2text` (lines 10-13): the row decode applied to every
row of the batch. -/
def tensor2text (outVocab : ℕ → Option (List Char)) (sep e : List Char)
    (X : List (List ℕ)) : Except PyError (List (List Char)) :=
  mapE (decodeRow outVocab sep e) X

/-- A lookup `self.in_vocabulary[c]` in `text2tensor`: a missing symbol
raises a `KeyError` (a `LookupError`). -/
def charLookup (inVocab : Char → Option ℕ) (c : Char) : Except PyError ℕ :=
  match inVocab c with
  | none => Except.error PyError.lookupError
  | some i => Except.ok i

/-- Model of `nn.utils.rnn.pad_sequence(·, batch_first = True)`: right-pad
every sequence with the padding index 0 up to the length of the longest
sequence in the batch. -/
def padBatch (seqs : List (List ℕ)) : List (List ℕ) :=
  let m := (seqs.map List.length).foldr max 0
  seqs.map (fun l => l ++ List.replicate (m - l.length) 0)

/-- One string of `text2tensor`: encode it character by character through
the input vocabulary. -/
def encodeRow (inVocab : Char → Option ℕ) (s : List Char) :
    Except PyError (List ℕ) :=
  mapE (charLookup inVocab) s

/-- Model of `text2tensor` (lines 15-18): encode each string character by
character through the input vocabulary, then pad the batch with 0. -/
def text2tensor (inVocab : Char → Option ℕ) (strings : List (List Char)) :
    Except PyError (List (List ℕ)) :=
  match mapE (encodeRow inVocab) strings with
  | Except.error e => Except.error e
  | Except.ok seqs => Except.ok (padBatch seqs)

instance {α : Type} [DecidableEq α] : DecidableEq (Except PyError α) :=
  fun x y =>
    match x, y with
    | Except.error e1, Except.error e2 =>
      if h : e1 = e2 then Decidable.isTrue (by rw [h])
      else Decidable.isFalse (by intro hc; injection hc; exact h (by assumption))
    | Except.error _, Except.ok _ => Decidable.isFalse (by intro hc; exact Except.noConfusion hc)
    | Except.ok _, Except.error _ => Decidable.isFalse (by intro hc; exact Except.noConfusion hc)
    | Except.ok b1, Except.ok b2 =>
      if h : b1 = b2 then Decidable.isTrue (by rw [h])
      else Decidable.isFalse (by intro hc; injection hc; exact h (by assumption))

/-- The `end = "<END>"` default of `tensor2text`, as a character list. -/
def ENDTOK : List Char := ['<', 'E', 'N', 'D', '>']

/-- Model of the in-vocabulary dictionary built from an ordered vocabulary
list: a symbol maps to its index (first occurrence) and symbols outside the
list are absent. -/
def vocabEncode : List Char → Char → Option ℕ
  | [], _ => none
  | v :: V, c => if v = c then some 0 else (vocabEncode V c).map (· + 1)

/-- Model of the out-vocabulary mapping of the same ordered vocabulary
list: an index maps to the symbol at that position (a one-character
string). -/
def vocabDecode (V : List Char) (i : ℕ) : Option (List Char) :=
  (V.get? i).map (fun c => [c])

/-- Encoding a single string with `text2tensor` and decoding the result
with `tensor2text` over the same ordered vocabulary, with `tensor2text`'s
default separator `""` and default end symbol `"<END>"`. -/
def roundTrip (V : List Char) (S : List Char) : Except PyError (List (List Char)) :=
  match text2tensor (vocabEncode V) [S] with
  | Except.error e => Except.error e
  | Except.ok X => tensor2text (vocabDecode V) [] ENDTOK X

/-- The intermediate value bound to `Y` inside `generate`: the greedy
branch binds the whole `(sequences, log_probabilities)` pair returned by
`greedy_search`, while the sample and beam branches bind a plain index
tensor. -/
inductive GenVal
  | tens (x : List (List ℕ))
  | pairT (x : List (List ℕ)) (s : List ℚ)

/-- The slice `Y[:, 1:]` taken in the last line of `generate`.  On a
tensor it drops the leading START column; on the tuple bound by the greedy
branch, Python raises `TypeError` (tuple indices must be integers or
slices, not tuple). -/
def sliceTail1 : GenVal → Except PyError (List (List ℕ))
  | GenVal.tens x => Except.ok (x.map (List.drop 1))
  | GenVal.pairT _ _ => Except.error PyError.typeError

/-- Row-wise `torch.cat((X, Y), axis = 1)`. -/
def catRows (X Y : List (List ℕ)) : List (List ℕ) :=
  List.zipWith (· ++ ·) X Y

/-- Modelled from the spec: `Seq2Seq.sample` is not under `src/` (only its
callers are).  Per the specification's temperature-sampling contract, the
temperature must be a positive real number and the call fails with
`InvalidArgument` otherwise, before any model invocation; a positive
temperature draws the continuation from the model, abstracted here by the
`draw` oracle. -/
def sample (draw : List (List ℕ) → ℕ → ℚ → List (List ℕ))
    (X : List (List ℕ)) (maxPred : ℕ) (temperature : ℚ) :
    Except PyError (List (List ℕ)) :=
  if temperature ≤ 0 then Except.error PyError.valueError
  else Except.ok (draw X maxPred temperature)

/-- Model of `generate` (lines 65-85).  The decoding strategies of the
missing `Seq2Seq` base class are abstracted by oracles: `gs` is
`greedy_search` returning a `(sequences, log_probabilities)` pair (as the
spec states and as `fit`'s diagnostic block uses it), `draw` is the
post-validation part of `sample`, and `bs` is `beam_search` returning the
`candidates`-ranked hypotheses with their scores.  The input text is
tokenized first; the method name then selects a branch (`assert x is not
None` is modelled as `AssertionError` on `none`); finally the input is
concatenated with `Y[:, 1:]` and detokenized with the default separator
and end symbol.  `Y[:, 0, :]` on the beam output is modelled with a
default for an empty hypothesis list (beam search always returns at least
one hypothesis). -/
def generate (gs : List (List ℕ) → ℕ → List (List ℕ) × List ℚ)
    (draw : List (List ℕ) → ℕ → ℚ → List (List ℕ))
    (bs : List (List ℕ) → ℕ → ℕ → ℕ → List (List (List ℕ)) × List (List ℚ))
    (inVocab : Char → Option ℕ) (outVocab : ℕ → Option (List Char))
    (input_text : List (List Char)) (maxPred : ℕ) (method : String)
    (temperature : Option ℚ) (candidates beam_width : Option ℕ) :
    Except PyError (List (List Char)) :=
  match text2tensor inVocab input_text with
  | Except.error e => Except.error e
  | Except.ok X =>
    let yres : Except PyError GenVal :=
      if method = "greedy_search" then
        Except.ok (GenVal.pairT (gs X maxPred).1 (gs X maxPred).2)
      else if method = "sample" then
        match temperature with
        | none => Except.error PyError.assertionError
        | some t => Except.map GenVal.tens (sample draw X maxPred t)
      else if method = "beam_search" then
        match candidates, beam_width with
        | some c, some bw =>
          Except.ok (GenVal.tens (((bs X maxPred c bw).1).map (fun h => h.getD 0 [])))
        | _, _ => Except.error PyError.assertionError
      else Except.error PyError.valueError
    match yres with
    | Except.error e => Except.error e
    | Except.ok Y =>
      match sliceTail1 Y with
      | Except.error e => Except.error e
      | Except.ok Ys => tensor2text outVocab [] ENDTOK (catRows X Ys)

/-- Observable side effects of `fit`: the per-epoch loss report (line 44)
and the final `torch.save` (line 64). -/
inductive FitEffect
  | printLoss (epoch : ℕ) (loss : ℚ)
  | save (path : String)
  deriving DecidableEq

/-- Helper for `makeBatches`, with the list length as structural fuel. -/
def makeBatchesGo (n : ℕ) : ℕ → List δ → List (List δ)
  | _, [] => []
  | 0, _ :: _ => []
  | fuel + 1, a :: t => (a :: t).take n :: makeBatchesGo n fuel ((a :: t).drop n)

/-- Model of `DataLoader(dataset, batch_size, shuffle = True)`'s batching:
partition the (already shuffled) dataset into consecutive batches of
`batch_size` elements, the last batch possibly smaller.  (`DataLoader`
rejects `batch_size = 0`, so that case is not exercised.) -/
def makeBatches (n : ℕ) (l : List δ) : List (List δ) :=
  makeBatchesGo n l.length l

/-- One epoch of the training loop (lines 36-44): run every mini-batch
(`batchLoss` abstracts lines 38-43: the forward pass, the masked loss, and
the optimizer step, any of which may raise), then report the mean loss;
`sum(losses) / len(losses)` raises `ZeroDivisionError` when there was no
mini-batch. -/
def runEpoch (batchLoss : α → Except PyError ℚ) (batches : List α) :
    Except PyError ℚ :=
  match mapE batchLoss batches with
  | Except.error e => Except.error e
  | Except.ok losses =>
    if losses.length = 0 then Except.error PyError.zeroDivisionError
    else Except.ok (losses.sum / (losses.length : ℚ))

/-- The epoch loop of `fit`, from epoch `e` with `n` epochs remaining:
each successful epoch appends its loss report; the first exception aborts
the loop.  (The `verbose > 2` diagnostic block is pure observability and is
not modelled.) -/
def fitEpochs (batchLoss : α → Except PyError ℚ) (batchesOf : ℕ → List α) :
    ℕ → ℕ → List FitEffect × Option PyError
  | _, 0 => ([], none)
  | e, n + 1 =>
    match runEpoch batchLoss (batchesOf e) with
    | Except.error err => ([], some err)
    | Except.ok m =>
      (FitEffect.printLoss e m :: (fitEpochs batchLoss batchesOf (e + 1) n).1,
        (fitEpochs batchLoss batchesOf (e + 1) n).2)

/-- Model of `fit` (lines 20-64) as an effect trace: zip the dataset, run
`epochs` epochs over its shuffled batches, and only after the whole loop
finishes, save to `save_path` when one was given.  `shuffle` abstracts the
data loader's reshuffling of the dataset at each epoch. -/
def fit (batchLoss : List (σ × τ) → Except PyError ℚ)
    (shuffle : ℕ → List (σ × τ) → List (σ × τ))
    (X : List σ) (Y : List τ) (epochs batch_size : ℕ)
    (save_path : Option String) : List FitEffect × Option PyError :=
  match fitEpochs batchLoss
      (fun e => makeBatches batch_size (shuffle e (X.zip Y))) 1 epochs with
  | (effs, some err) => (effs, some err)
  | (effs, none) =>
    match save_path with
    | none => (effs, none)
    | some p => (effs ++ [FitEffect.save p], none)

/-- The `.transpose(1, 2)` applied to the output of `forward` in `fit`
(line 38): `(batch, time, vocab)` logits become `(batch, vocab, time)`. -/
def transpose12 (x : Fin N → Fin T → Fin V → ℚ) : Fin N → Fin V → Fin T → ℚ :=
  fun n v t => x n t v

/-- The slice `predictions[:, :, :-1]` in `fit` (line 39): the last time
position of the `(batch, vocab, time)` logits is dropped. -/
def dropLastTime (x : Fin N → Fin V → Fin (T + 1) → ℚ) :
    Fin N → Fin V → Fin T → ℚ :=
  fun n v t => x n v (Fin.castSucc t)

/-- The slice `y[:, 1:]` in `fit` (line 39): the first position of every
target row is dropped. -/
def shiftTargets (y : Fin N → Fin (T + 1) → ℕ) : Fin N → Fin T → ℕ :=
  fun n t => y n (Fin.succ t)

/-- Model of `nn.CrossEntropyLoss(ignore_index = 0)` with its default mean
reduction, on `(batch, vocab, time)` logits and `(batch, time)` integer
targets.  The per-position loss (the negative log-softmax of the target
class) is abstracted by `ℓ`, applied to the logit column of the position;
positions whose target is the ignored index 0 contribute neither to the
sum nor to the count the sum is divided by. -/
def crossEntropyIgnorePad (ℓ : (Fin V → ℚ) → ℕ → ℚ)
    (input : Fin N → Fin V → Fin T → ℚ) (target : Fin N → Fin T → ℕ) : ℚ :=
  (∑ n : Fin N, ∑ t : Fin T,
      if target n t = 0 then 0 else ℓ (fun v => input n v t) (target n t)) /
    ((Finset.univ.filter
        (fun p : Fin N × Fin T => target p.1 p.2 ≠ 0)).card : ℚ)

/-- Model of the loss computed for one mini-batch in `fit` (lines 38-39):
`criterion(self.forward(x, y).transpose(1, 2)[:, :, :-1], y[:, 1:])`, for
`logits` the `(batch, time, vocab)` output of `forward(x, y)`. -/
def fitBatchLoss (ℓ : (Fin V → ℚ) → ℕ → ℚ)
    (logits : Fin N → Fin (T + 1) → Fin V → ℚ)
    (y : Fin N → Fin (T + 1) → ℕ) : ℚ :=
  crossEntropyIgnorePad ℓ (dropLastTime (transpose12 logits)) (shiftTargets y)

/-- Boolean success test for a modelled Python computation. -/
def okE : Except PyError α → Bool
  | Except.ok _ => true
  | Except.error _ => false

/-- Concrete output vocabulary used for witnesses and counterexamples:
index 0 is the pad symbol, 1 is `a`, 2 is the end marker `<END>`, 3 is a
newline symbol. -/
def outV0 : ℕ → Option (List Char) := fun i =>
  if i = 0 then some ['_'] else if i = 1 then some ['a']
  else if i = 2 then some ENDTOK else if i = 3 then some ['\n'] else none

/-- Concrete input vocabulary used for witnesses and counterexamples:
only the symbol `a`, at index 1. -/
def inV0 : Char → Option ℕ := fun c => if c = 'a' then some 1 else none

/-- Concrete greedy-search oracle used for witnesses and counterexamples. -/
def gs0 : List (List ℕ) → ℕ → List (List ℕ) × List ℚ :=
  fun X _ => (X.map (fun _ => [4, 2]), X.map (fun _ => 0))

/-- Concrete sampling oracle used for witnesses and counterexamples. -/
def draw0 : List (List ℕ) → ℕ → ℚ → List (List ℕ) := fun _ _ _ => [[4, 1]]

/-- Concrete beam-search oracle used for witnesses and counterexamples. -/
def bs0 : List (List ℕ) → ℕ → ℕ → ℕ → List (List (List ℕ)) × List (List ℚ) :=
  fun _ _ _ _ => ([[[4, 1, 2]]], [[0]])

theorem beginsWith_iff : ∀ p s : List Char, beginsWith p s = true ↔ listPre p s
  | [], s => by simp [beginsWith, listPre]
  | a :: p, [] => by
    simp only [beginsWith, listPre, Bool.false_eq_true, false_iff]
    rintro ⟨t, ht⟩
    exact List.cons_ne_nil a (p ++ t) ht
  | a :: p, b :: s => by
    simp only [beginsWith, Bool.and_eq_true, decide_eq_true_eq, listPre]
    constructor
    · rintro ⟨rfl, h⟩
      obtain ⟨t, rfl⟩ := (beginsWith_iff p s).1 h
      exact ⟨t, rfl⟩
    · rintro ⟨t, ht⟩
      rw [List.cons_append] at ht
      injection ht with h1 h2
      exact ⟨h1, (beginsWith_iff p s).2 ⟨t, h2⟩⟩

theorem beginsWith_refl : ∀ l : List Char, beginsWith l l = true
  | [] => rfl
  | a :: l => by simp [beginsWith, beginsWith_refl l]

theorem listPre_trans {a b c : List Char} (h1 : listPre a b) (h2 : listPre b c) :
    listPre a c := by
  obtain ⟨t, rfl⟩ := h1
  obtain ⟨u, rfl⟩ := h2
  exact ⟨t ++ u, (List.append_assoc a t u).symm⟩

theorem truncAtEnd_listPre (e : List Char) : ∀ s, listPre (truncAtEnd e s) s
  | [] => ⟨[], rfl⟩
  | c :: s => by
    by_cases h : beginsWith e (c :: s) = true
    · rw [truncAtEnd, if_pos h]
      exact (beginsWith_iff e (c :: s)).1 h
    · rw [truncAtEnd, if_neg h]
      obtain ⟨t, ht⟩ := truncAtEnd_listPre e s
      exact ⟨t, by rw [List.cons_append, ht]⟩

theorem truncAtEnd_idem (e : List Char) : ∀ s, truncAtEnd e (truncAtEnd e s) = truncAtEnd e s
  | [] => rfl
  | c :: s => by
    by_cases h : beginsWith e (c :: s) = true
    · rw [truncAtEnd, if_pos h]
      cases e with
      | nil => rfl
      | cons d e' => rw [truncAtEnd, if_pos (beginsWith_refl (d :: e'))]
    · rw [truncAtEnd, if_neg h, truncAtEnd, if_neg ?hn, truncAtEnd_idem e s]
      case hn =>
        intro hb
        apply h
        have h1 : listPre e (c :: truncAtEnd e s) := (beginsWith_iff _ _).1 hb
        have h2 : listPre (c :: truncAtEnd e s) (c :: s) := by
          obtain ⟨u, hu⟩ := truncAtEnd_listPre e s
          exact ⟨u, by rw [List.cons_append, hu]⟩
        exact (beginsWith_iff _ _).2 (listPre_trans h1 h2)

theorem truncAtEnd_not_mem (e : List Char) (a : Char) :
    ∀ s, a ∉ s → a ∉ truncAtEnd e s
  | [], h => h
  | c :: s, h => by
    by_cases hb : beginsWith e (c :: s) = true
    · rw [truncAtEnd, if_pos hb]
      obtain ⟨t, ht⟩ := (beginsWith_iff _ _).1 hb
      intro hm
      exact h (ht ▸ List.mem_append_left t hm)
    · rw [truncAtEnd, if_neg hb]
      intro hm
      rcases List.mem_cons.1 hm with h1 | h1
      · exact h (h1 ▸ List.mem_cons_self c s)
      · exact truncAtEnd_not_mem e a s (fun hs => h (List.mem_cons_of_mem c hs)) h1

theorem splitNl_ne_nil : ∀ s : List Char, splitNl s ≠ []
  | [] => by simp [splitNl]
  | c :: s => by
    rw [splitNl]
    by_cases h : c = '\n'
    · simp [h]
    · rw [if_neg h]
      cases hs : splitNl s with
      | nil => simp [consHead]
      | cons line rest => simp [consHead]

theorem splitNl_not_mem : ∀ s l, l ∈ splitNl s → '\n' ∉ l
  | [], l => by
    intro h
    rw [splitNl] at h
    rcases List.mem_cons.1 h with h1 | h1
    · subst h1; exact List.not_mem_nil '\n'
    · exact absurd h1 (List.not_mem_nil l)
  | c :: s, l => by
    intro hl
    rw [splitNl] at hl
    by_cases h : c = '\n'
    · rw [if_pos h] at hl
      rcases List.mem_cons.1 hl with h1 | h1
      · subst h1; exact List.not_mem_nil '\n'
      · exact splitNl_not_mem s l h1
    · rw [if_neg h] at hl
      cases hs : splitNl s with
      | nil => exact absurd hs (splitNl_ne_nil s)
      | cons line rest =>
        rw [hs, consHead] at hl
        have hline : '\n' ∉ line :=
          splitNl_not_mem s line (by rw [hs]; exact List.mem_cons_self line rest)
        rcases List.mem_cons.1 hl with h1 | h1
        · subst h1
          intro hm
          rcases List.mem_cons.1 hm with h2 | h2
          · exact h h2.symm
          · exact hline h2
        · exact splitNl_not_mem s l (by rw [hs]; exact List.mem_cons_of_mem line h1)

theorem splitNl_eq_single : ∀ s : List Char, '\n' ∉ s → splitNl s = [s]
  | [] => fun _ => rfl
  | c :: s => fun h => by
    have hc : ¬c = '\n' := fun hc => h (hc ▸ List.mem_cons_self c s)
    rw [splitNl, if_neg hc,
      splitNl_eq_single s (fun hs => h (List.mem_cons_of_mem c hs)), consHead]

theorem splitNl_append : ∀ l r : List Char, '\n' ∉ l →
    splitNl (l ++ '\n' :: r) = l :: splitNl r
  | [], r => fun _ => by rw [List.nil_append, splitNl, if_pos rfl]
  | c :: l, r => fun h => by
    have hc : ¬c = '\n' := fun hc => h (hc ▸ List.mem_cons_self c l)
    rw [List.cons_append, splitNl, if_neg hc,
      splitNl_append l r (fun hs => h (List.mem_cons_of_mem c hs)), consHead]

theorem splitNl_joinNl : ∀ ls : List (List Char), ls ≠ [] →
    (∀ l ∈ ls, '\n' ∉ l) → splitNl (joinNl ls) = ls
  | [], h, _ => absurd rfl h
  | [l], _, hl => by
    rw [joinNl]
    exact splitNl_eq_single l (hl l (List.mem_cons_self l []))
  | l :: l' :: ls, _, hl => by
    show splitNl (l ++ '\n' :: joinNl (l' :: ls)) = l :: (l' :: ls)
    rw [splitNl_append l _ (hl l (List.mem_cons_self l (l' :: ls))),
      splitNl_joinNl (l' :: ls) (List.cons_ne_nil l' ls)
        (fun x hx => hl x (List.mem_cons_of_mem l hx))]

theorem reSub_no_newline (e s : List Char) (h : '\n' ∉ s) :
    reSubEndDotStar e s = truncAtEnd e s := by
  rw [reSubEndDotStar, splitNl_eq_single s h, List.map_cons, List.map_nil, joinNl]

theorem reSub_idem (e s : List Char) :
    reSubEndDotStar e (reSubEndDotStar e s) = reSubEndDotStar e s := by
  rw [reSubEndDotStar, reSubEndDotStar,
    splitNl_joinNl ((splitNl s).map (truncAtEnd e))
      (by
        intro hmap
        exact splitNl_ne_nil s (List.map_eq_nil_iff.1 hmap))
      (by
        intro l hl
        obtain ⟨x, hx, rfl⟩ := List.mem_map.1 hl
        exact truncAtEnd_not_mem e '\n' x (splitNl_not_mem s x hx)),
    List.map_map]
  congr 1
  apply List.map_congr_left
  intro l _
  exact truncAtEnd_idem e l

theorem listSuf_length_le {e p : List Char} (h : listSuf e p) : e.length ≤ p.length := by
  obtain ⟨t, rfl⟩ := h
  simp

theorem listSuf_of_cons {e p : List Char} {c : Char} (h : listSuf e (c :: p))
    (hlen : e.length ≤ p.length) : listSuf e p := by
  obtain ⟨t, ht⟩ := h
  cases t with
  | nil =>
    rw [List.nil_append] at ht
    subst ht
    simp at hlen
  | cons d t' =>
    rw [List.cons_append] at ht
    injection ht with h1 h2
    exact ⟨t', h2⟩

theorem listSuf_eq_of_length {e p : List Char} (h : listSuf e p)
    (hlen : e.length = p.length) : e = p := by
  obtain ⟨t, rfl⟩ := h
  have ht : t.length = 0 := by
    have := List.length_append t e
    omega
  rw [List.eq_nil_of_length_eq_zero ht, List.nil_append]

theorem truncAtEnd_listSuf (e : List Char) :
    ∀ s, occursIn e s = true → listSuf e (truncAtEnd e s)
  | [] => by
    intro h
    rw [occursIn] at h
    cases e with
    | nil => exact ⟨[], rfl⟩
    | cons d e' => simp [beginsWith] at h
  | c :: s => by
    intro h
    by_cases hb : beginsWith e (c :: s) = true
    · rw [truncAtEnd, if_pos hb]
      exact ⟨[], List.nil_append e⟩
    · rw [truncAtEnd, if_neg hb]
      rw [occursIn] at h
      rcases (Bool.or_eq_true _ _).mp h with h1 | h1
      · exact absurd h1 hb
      · obtain ⟨t, ht⟩ := truncAtEnd_listSuf e s h1
        exact ⟨c :: t, by rw [List.cons_append, ht]⟩

theorem truncAtEnd_min (e : List Char) :
    ∀ s p, listPre p s → listSuf e p → (truncAtEnd e s).length ≤ p.length
  | [], p => by
    intro _ _
    rw [truncAtEnd]
    exact Nat.zero_le p.length
  | c :: s, p => by
    intro hp hsuf
    by_cases hb : beginsWith e (c :: s) = true
    · rw [truncAtEnd, if_pos hb]
      exact listSuf_length_le hsuf
    · rw [truncAtEnd, if_neg hb]
      cases p with
      | nil =>
        obtain ⟨t, ht⟩ := hsuf
        have he : e = [] := (List.append_eq_nil.1 ht).2
        subst he
        simp [beginsWith] at hb
      | cons d p' =>
        obtain ⟨u, hu⟩ := hp
        rw [List.cons_append] at hu
        injection hu with h1 h2
        subst h1
        by_cases hlen : e.length ≤ p'.length
        · have hs' : listSuf e p' := listSuf_of_cons hsuf hlen
          have := truncAtEnd_min e s p' ⟨u, h2⟩ hs'
          simpa using Nat.succ_le_succ this
        · have hle : e.length ≤ p'.length + 1 := by
            have := listSuf_length_le hsuf
            simpa using this
          have heq : e.length = (d :: p').length := by
            simp only [List.length_cons]
            omega
          have he : e = d :: p' := listSuf_eq_of_length hsuf heq
          subst he
          exact absurd ((beginsWith_iff _ _).2 ⟨u, by rw [List.cons_append, h2]⟩) hb

theorem okE_true_iff {x : Except PyError α} : okE x = true ↔ ∃ b, x = Except.ok b := by
  cases x with
  | error e => simp [okE]
  | ok b => simp [okE]

theorem mapE_nil (f : α → Except PyError β) : mapE f [] = Except.ok [] := rfl

theorem mapE_cons_ok {f : α → Except PyError β} {a : α} {b : β} {l : List α}
    {bs : List β} (h1 : f a = Except.ok b) (h2 : mapE f l = Except.ok bs) :
    mapE f (a :: l) = Except.ok (b :: bs) := by
  rw [mapE, h1, h2]

theorem mapE_map_of_ok (f : α → Except PyError β) (g : α → β) :
    ∀ l : List α, (∀ a ∈ l, f a = Except.ok (g a)) →
      mapE f l = Except.ok (l.map g)
  | [] => fun _ => rfl
  | a :: l => fun h => by
    rw [List.map_cons]
    exact mapE_cons_ok (h a (List.mem_cons_self a l))
      (mapE_map_of_ok f g l (fun x hx => h x (List.mem_cons_of_mem a hx)))

theorem mapE_ok_mem (f : α → Except PyError β) :
    ∀ l : List α, ∀ bs : List β, mapE f l = Except.ok bs →
      ∀ b ∈ bs, ∃ a ∈ l, f a = Except.ok b
  | [], bs => by
    intro h b hb
    rw [mapE_nil] at h
    injection h with h
    subst h
    exact absurd hb (List.not_mem_nil b)
  | a :: l, bs => by
    intro h b hb
    rw [mapE] at h
    cases hfa : f a with
    | error e => rw [hfa] at h; exact absurd h (by simp)
    | ok b0 =>
      rw [hfa] at h
      cases hm : mapE f l with
      | error e => rw [hm] at h; exact absurd h (by simp)
      | ok bs0 =>
        rw [hm] at h
        injection h with h
        subst h
        rcases List.mem_cons.1 hb with h1 | h1
        · exact ⟨a, List.mem_cons_self a l, h1 ▸ hfa⟩
        · obtain ⟨x, hx, hfx⟩ := mapE_ok_mem f l bs0 hm b h1
          exact ⟨x, List.mem_cons_of_mem a hx, hfx⟩

theorem mapE_not_okE (f : α → Except PyError β) :
    ∀ l : List α, (∃ a ∈ l, okE (f a) = false) → okE (mapE f l) = false
  | [] => by rintro ⟨a, ha, _⟩; exact absurd ha (List.not_mem_nil a)
  | a :: l => by
    rintro ⟨x, hx, hfx⟩
    rw [mapE]
    cases hfa : f a with
    | error e => rfl
    | ok b =>
      have hxl : x ∈ l := by
        rcases List.mem_cons.1 hx with h1 | h1
        · subst h1; rw [hfa] at hfx; exact absurd hfx (by simp [okE])
        · exact h1
      cases hm : mapE f l with
      | error e => rfl
      | ok bs =>
        have := mapE_not_okE f l ⟨x, hxl, hfx⟩
        rw [hm] at this
        exact absurd this (by simp [okE])

theorem mapE_okE (f : α → Except PyError β) :
    ∀ l : List α, (∀ a ∈ l, okE (f a) = true) → okE (mapE f l) = true
  | [] => fun _ => rfl
  | a :: l => fun h => by
    rw [mapE]
    cases hfa : f a with
    | error e =>
      have := h a (List.mem_cons_self a l)
      rw [hfa] at this
      exact absurd this (by simp [okE])
    | ok b =>
      cases hm : mapE f l with
      | error e =>
        have := mapE_okE f l (fun x hx => h x (List.mem_cons_of_mem a hx))
        rw [hm] at this
        exact absurd this (by simp [okE])
      | ok bs => rfl

theorem mapE_error_only (f : α → Except PyError β) (err : PyError)
    (hf : ∀ a, okE (f a) = false → f a = Except.error err) :
    ∀ l : List α, okE (mapE f l) = false → mapE f l = Except.error err
  | [] => by intro h; exact absurd h (by simp [mapE_nil, okE])
  | a :: l => by
    intro h
    rw [mapE] at h ⊢
    cases hfa : f a with
    | error e =>
      have := hf a (by rw [hfa]; rfl)
      rw [hfa] at this
      injection this with h1
      subst h1
      rfl
    | ok b =>
      rw [hfa] at h
      cases hm : mapE f l with
      | error e =>
        have := mapE_error_only f err hf l (by rw [hm]; rfl)
        rw [hm] at this
        injection this with h1
        subst h1
        rfl
      | ok bs => rw [hm] at h; exact absurd h (by simp [okE])

theorem mapE_error_of (f : α → Except PyError β) (err : PyError)
    (hf : ∀ a, okE (f a) = false → f a = Except.error err)
    (l : List α) (hl : ∃ a ∈ l, okE (f a) = false) :
    mapE f l = Except.error err :=
  mapE_error_only f err hf l (mapE_not_okE f l hl)

theorem vocabEncode_get : ∀ V : List Char, ∀ c : Char, ∀ i : ℕ,
    vocabEncode V c = some i → V.get? i = some c
  | [], c, i => by intro h; exact absurd h (by simp [vocabEncode])
  | v :: V, c, i => by
    intro h
    rw [vocabEncode] at h
    by_cases hv : v = c
    · rw [if_pos hv] at h
      injection h with h
      subst h
      rw [hv]
      rfl
    · rw [if_neg hv] at h
      cases hW : vocabEncode V c with
      | none => rw [hW] at h; exact absurd h (by simp)
      | some j =>
        rw [hW] at h
        simp only [Option.map_some'] at h
        injection h with h
        subst h
        simpa using vocabEncode_get V c j hW

theorem vocabEncode_mem : ∀ V : List Char, ∀ c ∈ V, ∃ i, vocabEncode V c = some i
  | [], c, hc => absurd hc (List.not_mem_nil c)
  | v :: V, c, hc => by
    by_cases hv : v = c
    · exact ⟨0, by rw [vocabEncode, if_pos hv]⟩
    · have hc' : c ∈ V := by
        rcases List.mem_cons.1 hc with h1 | h1
        · exact absurd h1.symm hv
        · exact h1
      obtain ⟨i, hi⟩ := vocabEncode_mem V c hc'
      exact ⟨i + 1, by rw [vocabEncode, if_neg hv, hi]; rfl⟩

theorem encode_decode (V : List Char) : ∀ S : List Char, (∀ c ∈ S, c ∈ V) →
    ∃ enc, mapE (charLookup (vocabEncode V)) S = Except.ok enc ∧
      mapE (symLookup (vocabDecode V)) enc = Except.ok (S.map (fun c => [c]))
  | [] => fun _ => ⟨[], rfl, rfl⟩
  | c :: S => fun h => by
    obtain ⟨i, hi⟩ := vocabEncode_mem V c (h c (List.mem_cons_self c S))
    obtain ⟨enc, h1, h2⟩ :=
      encode_decode V S (fun x hx => h x (List.mem_cons_of_mem c hx))
    refine ⟨i :: enc, ?_, ?_⟩
    · exact mapE_cons_ok (by rw [charLookup, hi]) h1
    · rw [List.map_cons]
      refine mapE_cons_ok ?_ h2
      rw [symLookup, vocabDecode, vocabEncode_get V c i hi]
      rfl

theorem joinSep_chars : ∀ S : List Char, joinSep [] (S.map (fun c => [c])) = S
  | [] => rfl
  | [c] => rfl
  | c :: c' :: S => by
    have ih := joinSep_chars (c' :: S)
    rw [List.map_cons] at ih ⊢
    rw [List.map_cons]
    show [c] ++ [] ++ joinSep [] ([c'] :: S.map (fun x => [x])) = c :: c' :: S
    rw [ih]
    rfl

theorem padBatch_single (l : List ℕ) : padBatch [l] = [l] := by
  simp [padBatch]

theorem fitEpochs_effects (bl : α → Except PyError ℚ) (bo : ℕ → List α) :
    ∀ n e : ℕ, ∀ x ∈ (fitEpochs bl bo e n).1, ∃ ep ls, x = FitEffect.printLoss ep ls
  | 0, e, x => by
    intro h
    exact absurd h (List.not_mem_nil x)
  | n + 1, e, x => by
    intro h
    rw [fitEpochs] at h
    cases hr : runEpoch bl (bo e) with
    | error err =>
      rw [hr] at h
      exact absurd h (List.not_mem_nil x)
    | ok m =>
      rw [hr] at h
      rcases List.mem_cons.1 h with h1 | h1
      · exact ⟨e, m, h1⟩
      · exact fitEpochs_effects bl bo n (e + 1) x h1

/-- Claim C1: in every mini-batch of `fit`, the masked cross-entropy loss
compares the model's predicted logits at position `t` (the last predicted
position, at index `T`, is discarded) against the true target symbol at
position `t + 1` (the first true position is never a prediction target),
and every position whose true symbol is the padding index 0 contributes
nothing: it is absent from the summed losses and from the count the sum is
divided by.  Moreover (second conjunct) the loss is unchanged by
arbitrary changes to the logits at the discarded last position or at
positions whose shifted target is the padding index. -/
theorem fit_loss_shifted_and_masked {N T V : ℕ} (ℓ : (Fin V → ℚ) → ℕ → ℚ)
    (logits : Fin N → Fin (T + 1) → Fin V → ℚ) (y : Fin N → Fin (T + 1) → ℕ) :
    fitBatchLoss ℓ logits y =
      (∑ n : Fin N, ∑ t : Fin T,
          if y n (Fin.succ t) = 0 then 0
          else ℓ (fun v => logits n (Fin.castSucc t) v) (y n (Fin.succ t))) /
        ((Finset.univ.filter
            (fun p : Fin N × Fin T => y p.1 (Fin.succ p.2) ≠ 0)).card : ℚ) ∧
      ∀ g : Fin N → Fin (T + 1) → Fin V → ℚ,
        (∀ n t v, y n (Fin.succ t) ≠ 0 →
          g n (Fin.castSucc t) v = logits n (Fin.castSucc t) v) →
        fitBatchLoss ℓ g y = fitBatchLoss ℓ logits y := by
  constructor
  · rfl
  · intro g hg
    unfold fitBatchLoss crossEntropyIgnorePad dropLastTime transpose12 shiftTargets
    congr 1
    apply Finset.sum_congr rfl
    intro n _
    apply Finset.sum_congr rfl
    intro t _
    by_cases h : y n (Fin.succ t) = 0
    · rw [if_pos h, if_pos h]
    · rw [if_neg h, if_neg h]
      congr 1
      funext v
      exact hg n t v h

/-- Witness for C1 at a concrete batch: one batch element, target length 2,
vocabulary size 1; the second logits tensor differs from the first only at
the discarded last time position, so both give the same loss. -/
theorem fit_loss_shifted_and_masked_w :
    fitBatchLoss (fun _ _ => (1 : ℚ))
        (fun (_ : Fin 1) (t : Fin 2) (_ : Fin 1) => if (t : ℕ) = 1 then 7 else 0)
        (fun (_ : Fin 1) (t : Fin 2) => if (t : ℕ) = 0 then 4 else 2) =
      fitBatchLoss (fun _ _ => (1 : ℚ))
        (fun (_ : Fin 1) (_ : Fin 2) (_ : Fin 1) => 0)
        (fun (_ : Fin 1) (t : Fin 2) => if (t : ℕ) = 0 then 4 else 2) :=
  (fit_loss_shifted_and_masked (fun _ _ => (1 : ℚ))
      (fun _ _ _ => 0) (fun _ t => if (t : ℕ) = 0 then 4 else 2)).2
    (fun _ t _ => if (t : ℕ) = 1 then 7 else 0) (by decide)

/-- Claim C7: `text2tensor` fails with a `LookupError` as soon as some
string of the batch contains a symbol absent from the input vocabulary,
and succeeds when every symbol of every string is present. -/
theorem text2tensor_lookup (inVocab : Char → Option ℕ)
    (strings : List (List Char)) :
    ((∃ s ∈ strings, ∃ c ∈ s, inVocab c = none) →
        text2tensor inVocab strings = Except.error PyError.lookupError) ∧
      ((∀ s ∈ strings, ∀ c ∈ s, inVocab c ≠ none) →
        okE (text2tensor inVocab strings) = true) := by
  have hchar : ∀ c, okE (charLookup inVocab c) = false →
      charLookup inVocab c = Except.error PyError.lookupError := by
    intro c hc
    rw [charLookup] at hc ⊢
    cases hv : inVocab c with
    | none => rfl
    | some i => rw [hv] at hc; exact absurd hc (by simp [okE])
  have hrow : ∀ s : List Char, okE (encodeRow inVocab s) = false →
      encodeRow inVocab s = Except.error PyError.lookupError :=
    fun s => mapE_error_only (charLookup inVocab) PyError.lookupError hchar s
  constructor
  · rintro ⟨s, hs, c, hc, hnone⟩
    rw [text2tensor]
    have hbad : okE (charLookup inVocab c) = false := by
      rw [charLookup, hnone]
      rfl
    have : mapE (encodeRow inVocab) strings =
        Except.error PyError.lookupError := by
      apply mapE_error_of _ _ (fun x => hrow x)
      refine ⟨s, hs, ?_⟩
      show okE (mapE (charLookup inVocab) s) = false
      exact mapE_not_okE _ s ⟨c, hc, hbad⟩
    rw [this]
  · intro h
    rw [text2tensor]
    have hall : okE (mapE (encodeRow inVocab) strings) = true := by
      apply mapE_okE
      intro s hs
      show okE (mapE (charLookup inVocab) s) = true
      apply mapE_okE
      intro c hc
      rw [charLookup]
      cases hv : inVocab c with
      | none => exact absurd hv (h s hs c hc)
      | some i => rfl
    obtain ⟨seqs, hseqs⟩ := okE_true_iff.1 hall
    rw [hseqs]
    rfl

/-- Witness for C7: with the one-symbol vocabulary `inV0` the batch
`["z"]` raises `LookupError`, while the batch `["a", "aa"]` encodes
successfully. -/
theorem text2tensor_lookup_w :
    text2tensor inV0 [['z']] = Except.error PyError.lookupError ∧
      okE (text2tensor inV0 [['a'], ['a', 'a']]) = true :=
  ⟨(text2tensor_lookup inV0 [['z']]).1 (by decide),
    (text2tensor_lookup inV0 [['a'], ['a', 'a']]).2 (by decide)⟩

/-- Claim C9: calling `fit` on an empty dataset produces zero mini-batches
in the first epoch, so the per-epoch report `sum(losses) / len(losses)`
divides by zero and the first epoch raises `ZeroDivisionError`: `fit` does
not complete normally (no loss is reported and no save happens). -/
theorem fit_empty_dataset_raises {σ τ : Type}
    (batchLoss : List (σ × τ) → Except PyError ℚ)
    (shuffle : ℕ → List (σ × τ) → List (σ × τ))
    (epochs batch_size : ℕ) (save_path : Option String)
    (h1 : 1 ≤ epochs) (h2 : shuffle 1 [] = []) :
    fit batchLoss shuffle ([] : List σ) ([] : List τ) epochs batch_size save_path =
      ([], some PyError.zeroDivisionError) := by
  obtain ⟨n, rfl⟩ : ∃ n, epochs = n + 1 := ⟨epochs - 1, by omega⟩
  rw [fit, fitEpochs]
  have hz : List.zip ([] : List σ) ([] : List τ) = [] := rfl
  rw [hz, h2]
  have hb : makeBatches batch_size ([] : List (σ × τ)) = [] := rfl
  rw [hb]
  have hr : runEpoch batchLoss ([] : List (List (σ × τ))) =
      Except.error PyError.zeroDivisionError := rfl
  rw [hr]

/-- Witness for C9 at concrete arguments: one epoch, identity shuffle. -/
theorem fit_empty_dataset_raises_w :
    fit (fun _ : List (ℕ × ℕ) => Except.ok (1 : ℚ)) (fun _ l => l)
        ([] : List ℕ) ([] : List ℕ) 1 100 (some "model.pt") =
      ([], some PyError.zeroDivisionError) :=
  fit_empty_dataset_raises _ _ 1 100 (some "model.pt") (by decide) rfl

/-- Claim C8: `fit` writes the parameters only after every epoch has
completed successfully.  A save effect occurs in the trace exactly when
the run raised no exception and the caller supplied a path, the saved path
is the caller's, and the save is the last effect of the run; in
particular nothing is written when `save_path` is `None`, and an epoch
failure aborts `fit` with no (partial) save. -/
theorem fit_saves_only_after_success {σ τ : Type}
    (batchLoss : List (σ × τ) → Except PyError ℚ)
    (shuffle : ℕ → List (σ × τ) → List (σ × τ))
    (X : List σ) (Y : List τ) (epochs batch_size : ℕ)
    (save_path : Option String) :
    (∀ p, FitEffect.save p ∈
        (fit batchLoss shuffle X Y epochs batch_size save_path).1 →
      (fit batchLoss shuffle X Y epochs batch_size save_path).2 = none ∧
        save_path = some p ∧
        (fit batchLoss shuffle X Y epochs batch_size save_path).1.getLast? =
          some (FitEffect.save p)) ∧
      ∀ p, (fit batchLoss shuffle X Y epochs batch_size save_path).2 = none →
        save_path = some p →
        FitEffect.save p ∈
          (fit batchLoss shuffle X Y epochs batch_size save_path).1 := by
  have hnosave : ∀ p, FitEffect.save p ∉
      (fitEpochs batchLoss
        (fun e => makeBatches batch_size (shuffle e (X.zip Y))) 1 epochs).1 := by
    intro p hp
    obtain ⟨ep, ls, hx⟩ := fitEpochs_effects _ _ epochs 1 _ hp
    exact FitEffect.noConfusion hx
  rw [fit]
  cases hF : fitEpochs batchLoss
      (fun e => makeBatches batch_size (shuffle e (X.zip Y))) 1 epochs with
  | mk effs res =>
    have hnosave' : ∀ p, FitEffect.save p ∉ effs := by
      intro p
      have := hnosave p
      rw [hF] at this
      exact this
    cases res with
    | some err =>
      refine ⟨fun p hp => absurd hp (hnosave' p), fun p hnone _ => ?_⟩
      exact Option.noConfusion hnone
    | none =>
      cases save_path with
      | none =>
        refine ⟨fun p hp => absurd hp (hnosave' p), fun p _ hsp => ?_⟩
        exact Option.noConfusion hsp
      | some q =>
        constructor
        · intro p hp
          rcases List.mem_append.1 hp with h1 | h1
          · exact absurd h1 (hnosave' p)
          · have hpq : FitEffect.save p = FitEffect.save q := List.mem_singleton.1 h1
            injection hpq with hpq
            subst hpq
            exact ⟨rfl, rfl, by rw [List.getLast?_concat]⟩
        · intro p _ hsp
          injection hsp with hsp
          subst hsp
          exact List.mem_append_right effs (List.mem_singleton.2 rfl)

/-- Witness for C8 at a concrete run: one epoch over a one-example dataset
with a supplied save path; the saved-path effect is present in the trace. -/
theorem fit_saves_only_after_success_w :
    FitEffect.save "model.pt" ∈
      (fit (fun _ : List (ℕ × ℕ) => Except.ok (1 : ℚ)) (fun _ l => l)
        [0] [0] 1 1 (some "model.pt")).1 :=
  (fit_saves_only_after_success (fun _ : List (ℕ × ℕ) => Except.ok (1 : ℚ))
      (fun _ l => l) [0] [0] 1 1 (some "model.pt")).2 "model.pt" rfl rfl

/-- Claim C2 as amended: the truncation `tensor2text` applies after
joining each row is per newline-delimited line (each line is cut at its
first occurrence of the end symbol, everything after it on that line,
including repeated end markers, is discarded), and this post-processing is
idempotent: re-applying it to any string `tensor2text` returns leaves the
string unchanged. -/
theorem tensor2text_trunc_idem (outVocab : ℕ → Option (List Char))
    (sep e : List Char) (X : List (List ℕ)) (out : List (List Char))
    (h : tensor2text outVocab sep e X = Except.ok out) :
    out.map (reSubEndDotStar e) = out := by
  have hfix : ∀ b ∈ out, reSubEndDotStar e b = b := by
    intro b hb
    rw [tensor2text] at h
    obtain ⟨row, _, hrow⟩ := mapE_ok_mem _ X out h b hb
    rw [decodeRow] at hrow
    cases hs : mapE (symLookup outVocab) row with
    | error err => rw [hs] at hrow; exact absurd hrow (by simp)
    | ok syms =>
      rw [hs] at hrow
      injection hrow with hrow
      rw [← hrow]
      exact reSub_idem e (joinSep sep syms)
  calc out.map (reSubEndDotStar e) = out.map id := List.map_congr_left hfix
    _ = out := List.map_id out

/-- Witness for C2: a decode whose row contains the end marker; applying
the truncation again to the returned string changes nothing. -/
theorem tensor2text_trunc_idem_w :
    [['a', '<', 'E', 'N', 'D', '>']].map (reSubEndDotStar ENDTOK) =
      [['a', '<', 'E', 'N', 'D', '>']] :=
  tensor2text_trunc_idem outV0 [] ENDTOK [[1, 2, 1]]
    [['a', '<', 'E', 'N', 'D', '>']] (by decide)

/-- Counterexample for C2 as stated: with an output vocabulary containing
a newline symbol, the row `[1, 2, 3, 1]` joins to `"a<END>\na"`, and
`tensor2text` returns it unchanged: the truncation is per line, it does
not discard everything after the first occurrence of the end symbol
(which would give `"a<END>"`, the value of `truncAtEnd`). -/
theorem tensor2text_trunc_cex :
    tensor2text outV0 [] ENDTOK [[1, 2, 3, 1]] =
        Except.ok [['a', '<', 'E', 'N', 'D', '>', '\n', 'a']] ∧
      truncAtEnd ENDTOK ['a', '<', 'E', 'N', 'D', '>', '\n', 'a'] =
        ['a', '<', 'E', 'N', 'D', '>'] ∧
      ['a', '<', 'E', 'N', 'D', '>', '\n', 'a'] ≠
        ['a', '<', 'E', 'N', 'D', '>'] := by
  refine ⟨by decide, by decide, by decide⟩

/-- Claim C3 as amended: encoding a string `S` over a vocabulary `V`
containing all its symbols and decoding the result over the same
vocabulary yields `S` with every newline-delimited line truncated at that
line's first `"<END>"` marker; when `S` contains no newline this is `S`
truncated at its first `"<END>"` marker (and `S` itself when it contains
none). -/
theorem roundTrip_mod_end (V S : List Char) (h : ∀ c ∈ S, c ∈ V) :
    roundTrip V S = Except.ok [reSubEndDotStar ENDTOK S] ∧
      ('\n' ∉ S → reSubEndDotStar ENDTOK S = truncAtEnd ENDTOK S) := by
  constructor
  · obtain ⟨enc, h1, h2⟩ := encode_decode V S h
    have h1' : encodeRow (vocabEncode V) S = Except.ok enc := h1
    have hx : text2tensor (vocabEncode V) [S] = Except.ok [enc] := by
      rw [text2tensor, mapE_cons_ok h1' (mapE_nil _)]
      show Except.ok (padBatch [enc]) = Except.ok [enc]
      rw [padBatch_single]
    rw [roundTrip, hx]
    show tensor2text (vocabDecode V) [] ENDTOK [enc] =
      Except.ok [reSubEndDotStar ENDTOK S]
    have hrow : decodeRow (vocabDecode V) [] ENDTOK enc =
        Except.ok (reSubEndDotStar ENDTOK S) := by
      rw [decodeRow, h2]
      show Except.ok (reSubEndDotStar ENDTOK (joinSep [] (S.map (fun c => [c])))) =
        Except.ok (reSubEndDotStar ENDTOK S)
      rw [joinSep_chars S]
    rw [tensor2text, mapE_cons_ok hrow (mapE_nil _)]
  · exact fun hn => reSub_no_newline ENDTOK S hn

/-- Witness for C3 at a concrete vocabulary and string containing an END
marker. -/
theorem roundTrip_mod_end_w :
    roundTrip ['a', '<', 'E', 'N', 'D', '>'] ['a', '<', 'E', 'N', 'D', '>', 'a'] =
      Except.ok [reSubEndDotStar ENDTOK ['a', '<', 'E', 'N', 'D', '>', 'a']] :=
  (roundTrip_mod_end ['a', '<', 'E', 'N', 'D', '>']
    ['a', '<', 'E', 'N', 'D', '>', 'a'] (by decide)).1

/-- Counterexample for C3 as stated: over a vocabulary containing a
newline, the string `"<END>\na"` (which contains an END marker) round
trips to itself, not to its truncation `"<END>"` at the first END
marker. -/
theorem roundTrip_mod_end_cex :
    roundTrip ['a', '<', 'E', 'N', 'D', '>', '\n'] ['<', 'E', 'N', 'D', '>', '\n', 'a'] =
        Except.ok [['<', 'E', 'N', 'D', '>', '\n', 'a']] ∧
      truncAtEnd ENDTOK ['<', 'E', 'N', 'D', '>', '\n', 'a'] =
        ['<', 'E', 'N', 'D', '>'] ∧
      ['<', 'E', 'N', 'D', '>', '\n', 'a'] ≠ ['<', 'E', 'N', 'D', '>'] := by
  refine ⟨by decide, by decide, by decide⟩

/-- Claim C10: for a batch row whose joined symbol string `j` contains the
end symbol and no newline, `tensor2text` returns the initial segment of
`j` that ends with the first occurrence of the end symbol: the returned
string is an initial segment of `j`, the end marker is retained as its
final characters, and it is the shortest initial segment of `j` ending
with the end symbol. -/
theorem tensor2text_keeps_end_marker (outVocab : ℕ → Option (List Char))
    (sep e : List Char) (row : List ℕ) (syms : List (List Char)) (j : List Char)
    (h1 : mapE (symLookup outVocab) row = Except.ok syms)
    (h2 : j = joinSep sep syms) (h3 : '\n' ∉ j) (h4 : occursIn e j = true) :
    tensor2text outVocab sep e [row] = Except.ok [truncAtEnd e j] ∧
      listPre (truncAtEnd e j) j ∧ listSuf e (truncAtEnd e j) ∧
      ∀ p, listPre p j → listSuf e p → (truncAtEnd e j).length ≤ p.length := by
  refine ⟨?_, truncAtEnd_listPre e j, truncAtEnd_listSuf e j h4,
    fun p hp hs => truncAtEnd_min e j p hp hs⟩
  have hrow : decodeRow outVocab sep e row = Except.ok (truncAtEnd e j) := by
    rw [decodeRow, h1]
    show Except.ok (reSubEndDotStar e (joinSep sep syms)) =
      Except.ok (truncAtEnd e j)
    rw [← h2, reSub_no_newline e j h3]
  rw [tensor2text, mapE_cons_ok hrow (mapE_nil _)]

/-- Witness for C10 at a concrete row joining to `"a<END>a"`: the decode
returns `"a<END>"`, an initial segment of the join ending with the
marker. -/
theorem tensor2text_keeps_end_marker_w :
    tensor2text outV0 [] ENDTOK [[1, 2, 1]] =
        Except.ok [truncAtEnd ENDTOK ['a', '<', 'E', 'N', 'D', '>', 'a']] ∧
      listSuf ENDTOK (truncAtEnd ENDTOK ['a', '<', 'E', 'N', 'D', '>', 'a']) :=
  ⟨(tensor2text_keeps_end_marker outV0 [] ENDTOK [1, 2, 1]
      [['a'], ENDTOK, ['a']] ['a', '<', 'E', 'N', 'D', '>', 'a']
      (by decide) (by decide) (by decide) (by decide)).1,
    (tensor2text_keeps_end_marker outV0 [] ENDTOK [1, 2, 1]
      [['a'], ENDTOK, ['a']] ['a', '<', 'E', 'N', 'D', '>', 'a']
      (by decide) (by decide) (by decide) (by decide)).2.2.1⟩

/-- Claim C4 (code bug): `generate` with the default method name
`"greedy_search"` binds the `(sequences, log_probabilities)` pair returned
by `greedy_search` to `Y` and then evaluates `Y[:, 1:]`, which raises
`TypeError` on a tuple — so the greedy branch never returns the
detokenized concatenation the claim (and the spec) describe.  The other
two recognized methods do behave as claimed: with the same model oracles,
beam search concatenates the unmodified input `[1]` with its top-ranked
hypothesis `[4, 1, 2]` minus the leading START symbol, and sampling
concatenates the input with the drawn continuation minus its leading
START symbol. -/
theorem generate_greedy_type_error :
    generate gs0 draw0 bs0 inV0 outV0 [['a']] 3 "greedy_search"
        (some 1) (some 5) (some 5) = Except.error PyError.typeError ∧
      generate gs0 draw0 bs0 inV0 outV0 [['a']] 3 "beam_search"
        (some 1) (some 5) (some 5) =
        Except.ok [['a', 'a', '<', 'E', 'N', 'D', '>']] ∧
      generate gs0 draw0 bs0 inV0 outV0 [['a']] 3 "sample"
        (some 1) (some 5) (some 5) = Except.ok [['a', 'a']] := by
  refine ⟨by decide, by decide, by decide⟩

/-- Claim C5 as amended: for every input text whose symbols all tokenize
and every method name outside the recognized set, `generate` raises
`ValueError` (the spec's `InvalidArgument`), and it does so independently
of the decoding oracles — no model invocation can influence the result
(the second copy of the oracles is arbitrary). -/
theorem generate_unknown_method (gs gs' : List (List ℕ) → ℕ → List (List ℕ) × List ℚ)
    (draw draw' : List (List ℕ) → ℕ → ℚ → List (List ℕ))
    (bs bs' : List (List ℕ) → ℕ → ℕ → ℕ → List (List (List ℕ)) × List (List ℚ))
    (inVocab : Char → Option ℕ) (outVocab : ℕ → Option (List Char))
    (input : List (List Char)) (X : List (List ℕ)) (maxPred : ℕ)
    (temp : Option ℚ) (cand bw : Option ℕ) (method : String)
    (h : text2tensor inVocab input = Except.ok X)
    (hm1 : method ≠ "greedy_search") (hm2 : method ≠ "sample")
    (hm3 : method ≠ "beam_search") :
    generate gs draw bs inVocab outVocab input maxPred method temp cand bw =
        Except.error PyError.valueError ∧
      generate gs' draw' bs' inVocab outVocab input maxPred method temp cand bw =
        Except.error PyError.valueError ∧
      PyError.valueError.isInvalidArg = true := by
  refine ⟨?_, ?_, rfl⟩ <;>
    simp only [generate, h, if_neg hm1, if_neg hm2, if_neg hm3]

/-- Witness for C5 at a concrete unknown method name `"greedy"` (the name
the spec's interface section uses, which the code does not recognize). -/
theorem generate_unknown_method_w :
    generate gs0 draw0 bs0 inV0 outV0 [['a']] 3 "greedy" none none none =
      Except.error PyError.valueError :=
  (generate_unknown_method gs0 gs0 draw0 draw0 bs0 bs0 inV0 outV0 [['a']]
    [[1]] 3 none none none "greedy" (by decide)
    (by decide) (by decide) (by decide)).1

/-- Counterexample for C5 as stated: `generate` tokenizes before
dispatching on the method name, so with the unknown method `"foo"` and an
input containing the out-of-vocabulary symbol `z`, it fails with
`LookupError`, which is not an `InvalidArgument`. -/
theorem generate_unknown_method_cex :
    generate gs0 draw0 bs0 inV0 outV0 [['z']] 3 "foo" none none none =
        Except.error PyError.lookupError ∧
      PyError.lookupError.isInvalidArg = false ∧
      "foo" ≠ "greedy_search" ∧ "foo" ≠ "sample" ∧ "foo" ≠ "beam_search" := by
  refine ⟨by decide, rfl, by decide, by decide, by decide⟩

/-- Claim C6 as amended: for every sampling call whose input text
tokenizes successfully, a temperature that is not a positive rational
fails with the spec's `InvalidArgument` before any sampling: `None` fails
the `assert temperature is not None` in `generate` with `AssertionError`,
and a non-positive number fails the validation of `sample` with the
spec's `InvalidArgument` (`ValueError` here) — in both cases the result
does not depend on the `draw` oracle, which is quantified.  A positive
temperature is accepted: `generate` proceeds to sampling and returns the
detokenized concatenation of the input with the drawn continuation minus
its leading START symbol. -/
theorem generate_sample_temperature
    (gs : List (List ℕ) → ℕ → List (List ℕ) × List ℚ)
    (draw : List (List ℕ) → ℕ → ℚ → List (List ℕ))
    (bs : List (List ℕ) → ℕ → ℕ → ℕ → List (List (List ℕ)) × List (List ℚ))
    (inVocab : Char → Option ℕ) (outVocab : ℕ → Option (List Char))
    (input : List (List Char)) (X : List (List ℕ)) (maxPred : ℕ)
    (cand bw : Option ℕ)
    (h : text2tensor inVocab input = Except.ok X) :
    (generate gs draw bs inVocab outVocab input maxPred "sample" none cand bw =
        Except.error PyError.assertionError ∧
      PyError.assertionError.isInvalidArg = true) ∧
      (∀ t : ℚ, t ≤ 0 →
        generate gs draw bs inVocab outVocab input maxPred "sample" (some t) cand bw =
          Except.error PyError.valueError ∧
        PyError.valueError.isInvalidArg = true) ∧
      ∀ t : ℚ, 0 < t →
        generate gs draw bs inVocab outVocab input maxPred "sample" (some t) cand bw =
          tensor2text outVocab [] ENDTOK
            (catRows X ((draw X maxPred t).map (List.drop 1))) := by
  have hs : ("sample" : String) ≠ "greedy_search" := by decide
  refine ⟨⟨?_, rfl⟩, fun t ht => ⟨?_, rfl⟩, fun t ht => ?_⟩
  · simp only [generate, h, if_neg hs, if_pos rfl, if_true]
  · simp only [generate, h, if_neg hs, if_pos rfl, sample, if_pos ht,
      Except.map, if_true]
  · simp only [generate, h, if_neg hs, if_pos rfl, sample,
      if_neg (not_le.mpr ht), Except.map, sliceTail1, if_true]

/-- Witness for C6 at concrete arguments: temperature `None` raises
`AssertionError`, temperature `-1` raises `ValueError`, temperature `1`
is accepted and samples. -/
theorem generate_sample_temperature_w :
    generate gs0 draw0 bs0 inV0 outV0 [['a']] 3 "sample" none (some 5) (some 5) =
        Except.error PyError.assertionError ∧
      generate gs0 draw0 bs0 inV0 outV0 [['a']] 3 "sample" (some (-1)) (some 5) (some 5) =
        Except.error PyError.valueError ∧
      generate gs0 draw0 bs0 inV0 outV0 [['a']] 3 "sample" (some 1) (some 5) (some 5) =
        tensor2text outV0 [] ENDTOK
          (catRows [[1]] ((draw0 [[1]] 3 1).map (List.drop 1))) :=
  ⟨(generate_sample_temperature gs0 draw0 bs0 inV0 outV0 [['a']] [[1]] 3
      (some 5) (some 5) (by decide)).1.1,
    ((generate_sample_temperature gs0 draw0 bs0 inV0 outV0 [['a']] [[1]] 3
      (some 5) (some 5) (by decide)).2.1 (-1) (by norm_num)).1,
    (generate_sample_temperature gs0 draw0 bs0 inV0 outV0 [['a']] [[1]] 3
      (some 5) (some 5) (by decide)).2.2 1 (by norm_num)⟩

/-- Counterexample for C6 as stated: a sampling call with the non-positive
temperature `-1` whose input contains the out-of-vocabulary symbol `z`
fails with `LookupError` from the earlier tokenization step, not with an
`InvalidArgument`. -/
theorem generate_sample_temperature_cex :
    generate gs0 draw0 bs0 inV0 outV0 [['z']] 3 "sample" (some (-1)) none none =
        Except.error PyError.lookupError ∧
      PyError.lookupError.isInvalidArg = false := by
  refine ⟨by decide, rfl⟩

end LMSeq2Seq
